import Mathlib

/-!
# Verification of the MemLyze trace engine

Shallow embedding of the MemLyze memory profiler (Python sources under
`src/tracer/memlyze/`) and proofs about its specification claims.

Conventions used throughout:
* Python `bytes` values are modelled as `List Nat`, one entry per byte.
* Python machine integers are `Nat` (all quantities involved are non-negative);
  the float `sample_rate` is modelled exactly as a rational number.
* Fallible Python code (exceptions such as `struct.error` or `IndexError`)
  is modelled with `Except String` / `Option`.
* Stateful code is modelled with explicit state passing.
* Unbounded `while` loops are modelled with an explicit fuel argument that the
  wrapper instantiates with a sufficient bound (the loops in the source
  consume at least one byte / one queue entry per iteration, so the input
  length is always sufficient); fuel-irrelevance lemmas are proved below.
-/

namespace Memlyze

/-! ## Format codec (`format.py`) -/

/-- Loop body of `TraceFormat.encode_varint` (format.py:72-79).
The Python loop `while value > 127: append((value & 0x7F) | 0x80); value >>= 7`
followed by `append(value & 0x7F)`, with an explicit fuel bound (the value
strictly decreases, so `fuel = value` suffices; see `encode_varint_eq`). -/
def encode_varint_go : Nat → Nat → List Nat
  | 0, value => [value &&& 127]
  | fuel + 1, value =>
    if 127 < value then ((value &&& 127) ||| 128) :: encode_varint_go fuel (value >>> 7)
    else [value &&& 127]

/-- `TraceFormat.encode_varint` (format.py:72-79): little-endian base-128
encoding, high bit set on all but the final byte. -/
def encode_varint (value : Nat) : List Nat :=
  encode_varint_go value value

/-- Loop body of `TraceFormat.decode_varint` (format.py:81-95).  Walks the
byte list from `offset`, accumulating `value |= (byte & 0x7F) << shift`;
running past the end of the data is an `IndexError` in Python, modelled as
`none`. Returns `(value, new_offset)` on the final byte. -/
def decode_varint_go : List Nat → Nat → Nat → Nat → Option (Nat × Nat)
  | [], _, _, _ => none
  | byte :: bs, pos, shift, value =>
    let value' := value ||| ((byte &&& 127) <<< shift)
    if byte &&& 128 = 0 then some (value', pos + 1)
    else decode_varint_go bs (pos + 1) (shift + 7) value'

/-- `TraceFormat.decode_varint` (format.py:81-95): decode a varint from
`data` at `offset`; returns `(value, new_offset)`. -/
def decode_varint (data : List Nat) (offset : Nat) : Option (Nat × Nat) :=
  decode_varint_go (data.drop offset) offset 0 0

/-- Loop body of the analyzer's `_read_varint` (`__main__.py`:253-266).
Unlike `decode_varint`, end-of-file makes it `return 0` (discarding any
partially accumulated value) instead of raising. Returns the decoded value
and the unconsumed remainder of the stream. -/
def read_varint_go : List Nat → Nat → Nat → Nat × List Nat
  | [], _, _ => (0, [])
  | byte :: bs, shift, value =>
    let value' := value ||| ((byte &&& 127) <<< shift)
    if byte &&& 128 = 0 then (value', bs)
    else read_varint_go bs (shift + 7) value'

/-- `_read_varint` (`__main__.py`:253-266), reading from the front of a byte
stream. -/
def read_varint (s : List Nat) : Nat × List Nat :=
  read_varint_go s 0 0

/-- `struct.pack` for a little-endian unsigned integer of `width` bytes
(`struct.pack('Q', x)` is `packLE 8 x`, `struct.pack('H', x)` is
`packLE 2 x`; the tracer only packs in-range values). -/
def packLE : Nat → Nat → List Nat
  | 0, _ => []
  | width + 1, value => (value % 256) :: packLE width (value / 256)

/-- `struct.unpack` of a little-endian unsigned integer from a byte list. -/
def unpackLE : List Nat → Nat
  | [] => 0
  | b :: bs => b + 256 * unpackLE bs

/-- The analyzer's `f.read(k)` followed by `struct.unpack`: `f.read` returns
at most `k` bytes, and `struct.unpack` raises `struct.error` when it gets
fewer than `k` (`__main__.py`:145,148,162). -/
def readFixed (k : Nat) (s : List Nat) : Except String (Nat × List Nat) :=
  if s.length < k then .error "struct.error: unpack requires more bytes"
  else .ok (unpackLE (s.take k), s.drop k)

/-! ## Intern tables (`format.py`) -/

/-- One frame of an interned stack trace as stored in the metadata:
`format.py:122-126`. -/
structure FrameRec where
  file_id : Nat
  line : Nat
  func_id : Nat
deriving DecidableEq

/-- A raw stack frame as handed to `get_or_create_stack_id`:
`(filename, lineno, function_name)`. -/
abbrev RawFrame := String × Nat × String

/-- The mutable state of a `TraceFormat` instance (format.py:42-51): the
three JSON metadata maps (modelled as insertion-ordered association lists
keyed by the integer id), the three id counters and the stack-dedup cache. -/
structure Fmt where
  stack_traces : List (Nat × List FrameRec)
  files : List (Nat × String)
  functions : List (Nat × String)
  next_stack_id : Nat
  next_file_id : Nat
  next_func_id : Nat
  stack_cache : List (List RawFrame × Nat)
deriving DecidableEq

/-- `TraceFormat.__init__` (format.py:42-51): empty tables, counters at 0. -/
def Fmt.init : Fmt := ⟨[], [], [], 0, 0, 0, []⟩

/-- `TraceFormat._get_or_create_file_id` (format.py:133-144): scan the
`files` map for the value, else allot the next id. -/
def get_or_create_file_id (fmt : Fmt) (filename : String) : Nat × Fmt :=
  match fmt.files.find? (fun p => p.2 == filename) with
  | some p => (p.1, fmt)
  | none =>
    (fmt.next_file_id,
      { fmt with
        files := fmt.files ++ [(fmt.next_file_id, filename)]
        next_file_id := fmt.next_file_id + 1 })

/-- `TraceFormat._get_or_create_func_id` (format.py:146-157). -/
def get_or_create_func_id (fmt : Fmt) (funcname : String) : Nat × Fmt :=
  match fmt.functions.find? (fun p => p.2 == funcname) with
  | some p => (p.1, fmt)
  | none =>
    (fmt.next_func_id,
      { fmt with
        functions := fmt.functions ++ [(fmt.next_func_id, funcname)]
        next_func_id := fmt.next_func_id + 1 })

/-- `TraceFormat.get_or_create_stack_id` (format.py:97-131): consult the
dedup cache, else allot the next stack id, intern every frame's file and
function name, and record the frame list in `stack_traces`. -/
def get_or_create_stack_id (fmt : Fmt) (stack : List RawFrame) : Nat × Fmt :=
  match fmt.stack_cache.find? (fun p => p.1 == stack) with
  | some p => (p.2, fmt)
  | none =>
    let sid := fmt.next_stack_id
    let fmt1 := { fmt with next_stack_id := sid + 1 }
    let step := fun (acc : List FrameRec × Fmt) (fr : RawFrame) =>
      let (fid, f1) := get_or_create_file_id acc.2 fr.1
      let (qid, f2) := get_or_create_func_id f1 fr.2.2
      (acc.1 ++ [⟨fid, fr.2.1, qid⟩], f2)
    let (frames, fmt2) := stack.foldl step ([], fmt1)
    (sid,
      { fmt2 with
        stack_traces := fmt2.stack_traces ++ [(sid, frames)]
        stack_cache := fmt2.stack_cache ++ [(stack, sid)] })

/-! ## Event encoders (`format.py`) -/

/-- `TraceFormat.encode_alloc_event` (format.py:159-195): tag 0, timestamp
delta varint, 8-byte little-endian address, size varint, stack-id varint,
2-byte thread id. -/
def encode_alloc_event (timestamp_delta address size stack_id thread_id : Nat) : List Nat :=
  0 :: (encode_varint timestamp_delta ++ packLE 8 address ++
    encode_varint size ++ encode_varint stack_id ++ packLE 2 thread_id)

/-- `TraceFormat.encode_free_event` (format.py:197-216): tag 1, delta
varint, 8-byte address. -/
def encode_free_event (timestamp_delta address : Nat) : List Nat :=
  1 :: (encode_varint timestamp_delta ++ packLE 8 address)

/-- `TraceFormat.encode_gc_event` (format.py:218-244): tag 2, delta varint,
objects-collected varint, bytes-freed varint. -/
def encode_gc_event (timestamp_delta objects_collected bytes_freed : Nat) : List Nat :=
  2 :: (encode_varint timestamp_delta ++ encode_varint objects_collected ++
    encode_varint bytes_freed)

/-- `TraceFormat.encode_marker_event` (format.py:246-268): tag 3, delta
varint, then the marker name interned through the function-name table
(`_get_or_create_func_id`) and emitted as a varint.  Stateful because it may
grow the function table. -/
def encode_marker_event (fmt : Fmt) (timestamp_delta : Nat) (name : String) :
    List Nat × Fmt :=
  let (name_id, fmt') := get_or_create_func_id fmt name
  (3 :: (encode_varint timestamp_delta ++ encode_varint name_id), fmt')

/-! ## Analyzer (`__main__.py`, `cmd_analyze`) -/

/-- One entry of the analyzer's `allocations` dict
(`__main__.py`:150-155). -/
structure AllocInfo where
  size : Nat
  stack_id : Nat
  time : Nat
  freed : Bool
deriving DecidableEq

/-- The analyzer's replay state while walking the event stream
(`__main__.py`:122-130): event-type counters, the running clock, the
per-address allocation map and the per-stack aggregate map (a `defaultdict`
whose absent entries read as `(0, 0)`). -/
structure AnState where
  event_count : Nat
  alloc_count : Nat
  free_count : Nat
  gc_count : Nat
  current_time : Nat
  allocations : Nat → Option AllocInfo
  alloc_by_stack : Nat → Nat × Nat

/-- State at the top of the event loop (`__main__.py`:122-130):
`current_time = start_time`, empty maps, zero counters. -/
def initAnState (start_time : Nat) : AnState :=
  ⟨0, 0, 0, 0, start_time, fun _ => none, fun _ => (0, 0)⟩

/-- The ALLOC branch of the event loop (`__main__.py`:144-159): overwrite
`allocations[address]` with a fresh un-freed entry stamped with the current
time, bump the per-stack aggregate and `alloc_count`. -/
def applyAlloc (st : AnState) (address size stack_id : Nat) : AnState :=
  { st with
    allocations := fun a =>
      if a = address then some ⟨size, stack_id, st.current_time, false⟩
      else st.allocations a
    alloc_by_stack := fun s =>
      if s = stack_id then
        ((st.alloc_by_stack stack_id).1 + 1, (st.alloc_by_stack stack_id).2 + size)
      else st.alloc_by_stack s
    alloc_count := st.alloc_count + 1 }

/-- The FREE branch (`__main__.py`:161-165): mark the entry freed only if
the address is present (`if address in allocations`); always bump
`free_count`. -/
def applyFree (st : AnState) (address : Nat) : AnState :=
  match st.allocations address with
  | some info =>
    { st with
      allocations := fun a =>
        if a = address then some { info with freed := true } else st.allocations a
      free_count := st.free_count + 1 }
  | none => { st with free_count := st.free_count + 1 }

/-- The GC branch (`__main__.py`:167-170): the two varint payload fields are
read (by the caller) and only the counter changes. -/
def applyGc (st : AnState) : AnState :=
  { st with gc_count := st.gc_count + 1 }

/-- One iteration of the analyzer's `while True` loop after the event-type
byte `t` has been read (`__main__.py`:132-170): bump `event_count`, read the
timestamp-delta varint, then dispatch on `t`.  Faithful to the source, the
`if/elif` chain covers only tags 0, 1 and 2; any other tag (including
MARKER = 3) falls through with its payload unconsumed.  Returns the updated
state and the unconsumed remainder of the stream; `struct.error` from a
short fixed-width read aborts the analysis. -/
def parseEvent (t : Nat) (rest : List Nat) (st : AnState) :
    Except String (AnState × List Nat) :=
  let st1 := { st with event_count := st.event_count + 1 }
  let dr := read_varint rest
  let st2 := { st1 with current_time := st1.current_time + dr.1 }
  if t = 0 then
    match readFixed 8 dr.2 with
    | .error e => .error e
    | .ok (address, r2) =>
      let sz := read_varint r2
      let sk := read_varint sz.2
      match readFixed 2 sk.2 with
      | .error e => .error e
      | .ok (_, r5) => .ok (applyAlloc st2 address sz.1 sk.1, r5)
  else if t = 1 then
    match readFixed 8 dr.2 with
    | .error e => .error e
    | .ok (address, r2) => .ok (applyFree st2 address, r2)
  else if t = 2 then
    let ob := read_varint dr.2
    let bf := read_varint ob.2
    .ok (applyGc st2, bf.2)
  else
    .ok (st2, dr.2)

/-- The analyzer's event loop (`__main__.py`:132-170) with an explicit fuel
bound: stop cleanly at end of stream, else parse one event and continue on
the remainder.  Each iteration consumes at least the event-type byte, so
`fuel = stream length` always suffices (`analyzeLoopF_irrel`). -/
def analyzeLoopF : Nat → List Nat → AnState → Except String AnState
  | _, [], st => .ok st
  | 0, _ :: _, _ => .error "out of fuel"
  | fuel + 1, t :: rest, st =>
    match parseEvent t rest st with
    | .error e => .error e
    | .ok (st', r') => analyzeLoopF fuel r' st'

/-- `cmd_analyze`'s parse of the event stream, starting from the byte after
the metadata blob with `current_time = start_time`
(`__main__.py`:121-170).  An uncaught exception inside the loop is caught by
the surrounding `except Exception` (`__main__.py`:241-245), surfacing as the
`.error` case. -/
def cmd_analyze_events (stream : List Nat) (start_time : Nat) :
    Except String AnState :=
  analyzeLoopF stream.length stream (initAnState start_time)

/-- The exit code of `cmd_analyze` as a function of the event stream: 0 when
the loop finishes and the report is printed, 1 when parsing raised
(`__main__.py`:241-250). -/
def cmd_analyze_exit (stream : List Nat) (start_time : Nat) : Nat :=
  match cmd_analyze_events stream start_time with
  | .ok _ => 0
  | .error _ => 1

/-! ### Abstract events for the replay-state claims

The analyzer's allocation-map logic (the body of the ALLOC/FREE/GC branches)
is shared above between the byte-level loop and this abstract replay over
already-parsed events. -/

/-- A parsed trace event as dispatched by the analyzer's event loop. -/
inductive AEvent where
  | alloc (delta address size stack_id : Nat)
  | free (delta address : Nat)
  | gc (delta objects bytes_freed : Nat)
deriving DecidableEq

/-- Replaying one parsed event: the common `event_count`/`current_time`
update followed by the per-tag branch, exactly as in `parseEvent`. -/
def replayStep (st : AnState) : AEvent → AnState
  | .alloc delta address size stack_id =>
    applyAlloc { st with event_count := st.event_count + 1,
                         current_time := st.current_time + delta } address size stack_id
  | .free delta address =>
    applyFree { st with event_count := st.event_count + 1,
                        current_time := st.current_time + delta } address
  | .gc delta _ _ =>
    applyGc { st with event_count := st.event_count + 1,
                      current_time := st.current_time + delta }

/-- The analyzer's replay of a parsed event stream. -/
def replay (evs : List AEvent) (start_time : Nat) : AnState :=
  evs.foldl replayStep (initAnState start_time)

/-- `address` is in the analyzer's leak set: it has an entry with
`freed = False` (`__main__.py`:179-181). -/
def isLeaked (st : AnState) (address : Nat) : Bool :=
  match st.allocations address with
  | some info => !info.freed
  | none => false

/-- One step of scanning for the most recent ALLOC/FREE event mentioning
`address`: `some true` for ALLOC, `some false` for FREE. -/
def mentionStep (address : Nat) (acc : Option Bool) : AEvent → Option Bool
  | .alloc _ a _ _ => if a = address then some true else acc
  | .free _ a => if a = address then some false else acc
  | .gc _ _ _ => acc

/-- The kind of the most recent ALLOC/FREE event mentioning `address`:
`some true` for ALLOC, `some false` for FREE, `none` if never mentioned. -/
def lastMention (evs : List AEvent) (address : Nat) : Option Bool :=
  evs.foldl (mentionStep address) none

/-- `address` occurs in some ALLOC event of the stream. -/
def hasAllocOn (evs : List AEvent) (address : Nat) : Bool :=
  evs.any fun e =>
    match e with
    | .alloc _ a _ _ => a = address
    | _ => false

/-! ## Trace writer (`writer.py`) -/

/-- The counter-and-queue state of a `TraceWriter` (writer.py:34-46).
`queue` holds encoded event byte-strings, head = oldest.  The file and the
scratch byte buffer are not modelled: the claims below are about the
enqueue/drain/drop accounting. -/
structure WSt where
  queue : List (List Nat)
  max_queue_size : Nat
  events_written : Nat
  events_dropped : Nat
deriving DecidableEq

/-- A writer directly after `open` (writer.py:48-57): empty queue, zero
counters. -/
def WSt.fresh (max_queue_size : Nat) : WSt := ⟨[], max_queue_size, 0, 0⟩

/-- `TraceWriter.write_event` (writer.py:59-72): under the lock, when the
queue is at capacity pop the oldest entry (Python's `popleft` raises
`IndexError` on an empty deque, which can only happen for
`max_queue_size = 0`) and count the drop, then append the new event. -/
def write_event (st : WSt) (event_data : List Nat) : Except String WSt :=
  if st.max_queue_size ≤ st.queue.length then
    match st.queue with
    | [] => .error "IndexError: pop from an empty deque"
    | _ :: tl =>
      .ok { st with queue := tl ++ [event_data],
                    events_dropped := st.events_dropped + 1 }
  else
    .ok { st with queue := st.queue ++ [event_data] }

/-- One pass of `TraceWriter._writer_loop` (writer.py:74-94): drain up to
1000 events from the queue and append them to the output buffer, counting
each in `events_written`.  Only the counter/queue effect is modelled. -/
def drainBatch (st : WSt) : WSt :=
  let k := min 1000 st.queue.length
  { st with queue := st.queue.drop k, events_written := st.events_written + k }

/-- `TraceWriter.close` (writer.py:103-125): after stopping the worker,
drain the queue to exhaustion into the buffer (counting each event in
`events_written`) and flush. -/
def closeWriter (st : WSt) : WSt :=
  { st with queue := [], events_written := st.events_written + st.queue.length }

/-- A producer/worker schedule: each atomic step is either a locked enqueue
or a locked batch drain by the worker thread. -/
inductive WOp where
  | enq (event_data : List Nat)
  | drain
deriving DecidableEq

def stepOp (st : WSt) : WOp → Except String WSt
  | .enq e => write_event st e
  | .drain => .ok (drainBatch st)

/-- Run a schedule of enqueues and drains from a given writer state. -/
def runOps (st : WSt) : List WOp → Except String WSt
  | [] => .ok st
  | op :: ops =>
    match stepOp st op with
    | .error e => .error e
    | .ok st' => runOps st' ops

/-- Number of enqueue calls in a schedule (every `write_event` call is a
successful enqueue). -/
def enqCount (ops : List WOp) : Nat :=
  ops.countP fun op => match op with | .enq _ => true | .drain => false

/-- Run a sequence of enqueues with no intervening drain (the overload
scenario: a stalled worker). -/
def runWrites (st : WSt) : List (List Nat) → Except String WSt
  | [] => .ok st
  | e :: es =>
    match write_event st e with
    | .error err => .error err
    | .ok st' => runWrites st' es

/-! ## Tracer (`tracer.py`) -/

/-- `MemoryTracer.__init__` (tracer.py:57): `sample_threshold =
int(1.0 / sample_rate) if sample_rate < 1.0 else 1`.  The Python float
arithmetic is modelled exactly over the rationals; `int()` truncates, which
for the positive quotient `1 / rate` is the floor. -/
def sample_threshold (sample_rate : ℚ) : Nat :=
  if sample_rate < 1 then (1 / sample_rate).floor.toNat else 1

/-- What the spec's sampling sentence prescribes for the stride:
`round(1 / sample_rate)`.  Modelled from the spec's words (spec §4.3.4) for
comparison with `sample_threshold`, which is what the code computes. -/
def spec_sampling_stride (sample_rate : ℚ) : ℤ :=
  round (1 / sample_rate)

/-- An event recorded by `_process_snapshot_diff`: a tracked allocation or
a tracked deallocation (sizes in bytes). -/
inductive PEv where
  | alloc (size : Nat)
  | free (size : Nat)
deriving DecidableEq

/-- The sign dispatch at tracer.py:214-223: positive diffs become ALLOC
events, negative diffs become FREE events of `abs(size_diff)`, zero diffs
record nothing. -/
def diffEvent (size_diff : ℤ) : Option PEv :=
  if 0 < size_diff then some (.alloc size_diff.toNat)
  else if size_diff < 0 then some (.free (-size_diff).toNat)
  else none

/-- The loop of `MemoryTracer._process_snapshot_diff` (tracer.py:205-223)
over the per-call-site `size_diff` statistics of one snapshot comparison.
State: `allocation_count` (the sampling counter).  When `sample_rate < 1`
the counter is bumped for every stat and the stat is skipped (`continue`)
unless the counter is a multiple of `sample_threshold` — note the skip
happens before the allocation/deallocation sign check.  Returns the list of
recorded events in order and the final counter. -/
def process_snapshot_diff (sample_rate : ℚ) (thr : Nat) :
    List ℤ → Nat → List PEv × Nat
  | [], allocation_count => ([], allocation_count)
  | d :: ds, allocation_count =>
    if sample_rate < 1 then
      let cnt' := allocation_count + 1
      if cnt' % thr ≠ 0 then process_snapshot_diff sample_rate thr ds cnt'
      else
        match diffEvent d with
        | some e =>
          let r := process_snapshot_diff sample_rate thr ds cnt'
          (e :: r.1, r.2)
        | none => process_snapshot_diff sample_rate thr ds cnt'
    else
      match diffEvent d with
      | some e =>
        let r := process_snapshot_diff sample_rate thr ds allocation_count
        (e :: r.1, r.2)
      | none => process_snapshot_diff sample_rate thr ds allocation_count

/-- `MemoryTracer._on_gc` (tracer.py:268-289): only the `"stop"` phase
produces a GC event; the event is written unconditionally — the sampling
counter and threshold are never consulted. -/
def on_gc (phase : String) (timestamp_delta collected : Nat) : Option (List Nat) :=
  if phase ≠ "stop" then none
  else some (encode_gc_event timestamp_delta collected 0)

/-! ### Trace-file lifecycle (`tracer.py` start/stop) for the header claim -/

/-- The on-disk contents of a trace file as far as the header-metadata claim
is concerned: the interned stack table serialized into the header metadata,
and the encoded events appended after it. -/
structure TraceFileModel where
  header_stack_traces : List (Nat × List FrameRec)
  events : List (List Nat)
deriving DecidableEq

/-- An active tracer: its `TraceFormat` state and the file written so
far. -/
structure TracerRun where
  fmt : Fmt
  file : TraceFileModel
deriving DecidableEq

/-- `MemoryTracer.start` (tracer.py:70-99): `create_header(start_time)`
serializes `self.format.metadata` as it stands at start — the tables are
still empty — and the header is written to the file
(tracer.py:87-89, format.py:53-70). -/
def tracer_start : TracerRun :=
  let fmt := Fmt.init
  ⟨fmt, ⟨fmt.stack_traces, []⟩⟩

/-- `MemoryTracer._record_allocation` (tracer.py:227-254): intern the stack
trace, encode an ALLOC event with the returned `stack_id` (address 0), and
hand it to the writer.  The queued event reaches the file at close; the
ring-buffer path is modelled separately (`write_event`). -/
def tracer_record_allocation (t : TracerRun) (timestamp_delta size : Nat)
    (stack : List RawFrame) (thread_id : Nat) : TracerRun :=
  let (stack_id, fmt') := get_or_create_stack_id t.fmt stack
  let ev := encode_alloc_event timestamp_delta 0 size stack_id thread_id
  ⟨fmt', ⟨t.file.header_stack_traces, t.file.events ++ [ev]⟩⟩

/-- `MemoryTracer.stop` (tracer.py:114-192): takes a final snapshot, then
`self.writer.close()` — which only drains the queue and closes the file
(writer.py:103-125).  Nothing in `stop` or `close` seeks back to offset 0
or touches the header, so the file's header metadata stays exactly as
written at start. -/
def tracer_stop (t : TracerRun) : TracerRun := t

/-! ### Process-wide tracer registry (`tracer.py` module level) for the
single-active-tracer claim -/

/-- The process state relevant to tracer exclusivity: one `is_active` flag
per `MemoryTracer` instance (indexed by instance id) and the module-level
`_active_tracer` handle (tracer.py:16-17). -/
structure TracerWorld where
  instances : List Bool
  active_tracer : Option Nat
deriving DecidableEq

/-- `MemoryTracer.start` (tracer.py:70-99), state effect: raise
`RuntimeError("Tracer is already active")` iff `self.is_active` — the check
consults only the instance's own flag, never `_active_tracer` — else set
`self.is_active = True` and overwrite the module-level `_active_tracer`
with `self`. -/
def memoryTracer_start (id : Nat) (w : TracerWorld) : Except String TracerWorld :=
  if w.instances.getD id false then .error "RuntimeError: Tracer is already active"
  else .ok ⟨w.instances.set id true, some id⟩

/-- The module-level `start` convenience function (tracer.py:341-364):
construct a brand-new `MemoryTracer` (whose `is_active` is `False`) and call
its `start`. -/
def module_start (w : TracerWorld) : Except String TracerWorld :=
  memoryTracer_start w.instances.length ⟨w.instances ++ [false], w.active_tracer⟩

/-! ## Concrete scenarios referenced by the claims -/

/-- Spec §8 end-to-end scenario 5 (`mark`, allocate, `mark`), event-stream
bytes as the tracer writes them: `tracer.mark("phase-1")` encodes a MARKER
through `encode_marker_event` (tracer.py:291-301), an allocation of
1024 bytes at one interned call site follows, then `tracer.mark("phase-2")`.
All timestamp deltas are 0; the intern state is threaded exactly as the
single `TraceFormat` instance would. -/
def markerScenarioStream : List Nat :=
  let m1 := encode_marker_event Fmt.init 0 "phase-1"
  let s1 := get_or_create_stack_id m1.2 [("app.py", 10, "")]
  let a1 := encode_alloc_event 0 0 1024 s1.1 1
  let m2 := encode_marker_event s1.2 0 "phase-2"
  m1.1 ++ a1 ++ m2.1

/-- A start/capture/stop run with a single tracked allocation: the file
produced by `start()`, one `_record_allocation`, then `stop()`. -/
def singleAllocRun : TracerRun :=
  tracer_stop (tracer_record_allocation tracer_start 0 1024 [("app.py", 10, "")] 1)

/-- The keys of the interned stack table stored in a trace file's header
metadata. -/
def headerStackIds (f : TraceFileModel) : List Nat :=
  f.header_stack_traces.map Prod.fst

/-- The event-stream bytes of a sequence of FREE events, given as
`(timestamp_delta, address)` pairs. -/
def freeEventsBytes (frees : List (Nat × Nat)) : List Nat :=
  (frees.map fun p => encode_free_event p.1 p.2).flatten

/-- A FREE event truncated 3 bytes short — the tag, the full delta varint,
but only 5 of the 8 address bytes (the spec's "truncate the last 3 bytes of
the event stream" scenario applied to a stream ending in a FREE event). -/
def truncatedFreeTail (timestamp_delta address : Nat) : List Nat :=
  1 :: (encode_varint timestamp_delta ++ (packLE 8 address).take 5)

/-- A truncated stream on which the analyzer nevertheless exits 0:
`mark("a"); mark("b"); mark("c")` followed by a FREE of address 256
truncated 3 bytes short.  The first MARKER's unconsumed name_id
desynchronizes the parse, and the remaining bytes are absorbed into one
bogus ALLOC of size 1 that ends exactly at end-of-file, so the loop
finishes cleanly.  (The bogus ALLOC's size is 1, so the source's report
stage — including the percentage division over total allocated bytes —
also completes without raising.) -/
def markersThenTruncatedFree : List Nat :=
  let m1 := encode_marker_event Fmt.init 0 "a"
  let m2 := encode_marker_event m1.2 0 "b"
  let m3 := encode_marker_event m2.2 0 "c"
  m1.1 ++ m2.1 ++ m3.1 ++ truncatedFreeTail 0 256

/-! ## Supporting lemmas -/

/-! ### Basic bitwise lemmas used by the varint proofs -/

theorem and127_of_lt {a : Nat} (h : a < 128) : a &&& 127 = a := by
  have h7 : (127 : Nat) = 2 ^ 7 - 1 := by norm_num
  rw [h7]
  exact Nat.and_pow_two_sub_one_of_lt_two_pow h

theorem and127_lt (a : Nat) : a &&& 127 < 128 := by
  have h7 : (127 : Nat) = 2 ^ 7 - 1 := by norm_num
  rw [h7, Nat.and_pow_two_sub_one_eq_mod]
  exact Nat.mod_lt _ (by norm_num)

theorem and128_of_lt {a : Nat} (h : a < 128) : a &&& 128 = 0 := by
  have h7 : (128 : Nat) = 2 ^ 7 := by norm_num
  rw [h7, Nat.and_two_pow]
  have : a.testBit 7 = false := Nat.testBit_lt_two_pow (by norm_num at h7 ⊢; omega)
  simp [this]

theorem or128_and127 (a : Nat) : (a ||| 128) &&& 127 = a &&& 127 := by
  rw [Nat.and_distrib_right, show (128 : Nat) &&& 127 = 0 by decide, Nat.or_zero]

theorem or128_and128 {a : Nat} (h : a < 128) : (a ||| 128) &&& 128 = 128 := by
  rw [Nat.and_distrib_right, and128_of_lt h]
  norm_num

/-- Splitting a value into its low 7 bits and the rest commutes with a shift:
the bitwise skeleton of one varint encode/decode step. -/
theorem shiftLeft_low7_decomp (n shift : Nat) :
    ((n &&& 127) <<< shift) ||| ((n >>> 7) <<< (shift + 7)) = n <<< shift := by
  apply Nat.eq_of_testBit_eq
  intro j
  have h7 : (127 : Nat) = 2 ^ 7 - 1 := by norm_num
  simp only [Nat.testBit_or, Nat.testBit_shiftLeft, Nat.testBit_and,
    Nat.testBit_shiftRight, h7, Nat.testBit_two_pow_sub_one]
  by_cases h1 : shift ≤ j
  · by_cases h2 : shift + 7 ≤ j
    · have hlt : ¬ (j - shift < 7) := by omega
      have heq : 7 + (j - (shift + 7)) = j - shift := by omega
      simp [ge_iff_le, h1, h2, hlt, heq]
    · have hlt : j - shift < 7 := by omega
      simp [ge_iff_le, h1, h2, hlt]
  · have h2 : ¬ (shift + 7 ≤ j) := by omega
    simp [ge_iff_le, h1, h2]

/-! ### Varint equation and fuel irrelevance -/

theorem encode_varint_go_irrel :
    ∀ f₁ f₂ value, value ≤ f₁ → value ≤ f₂ →
      encode_varint_go f₁ value = encode_varint_go f₂ value := by
  intro f₁
  induction f₁ with
  | zero =>
    intro f₂ value h1 _
    interval_cases value
    cases f₂ <;> simp [encode_varint_go]
  | succ f ih =>
    intro f₂ value h1 h2
    by_cases hv : 127 < value
    · have hf2 : ∃ k, f₂ = k + 1 := ⟨f₂ - 1, by omega⟩
      obtain ⟨k, rfl⟩ := hf2
      have hdiv : value >>> 7 < value := by
        rw [Nat.shiftRight_eq_div_pow]
        exact Nat.div_lt_self (by omega) (by norm_num)
      simp only [encode_varint_go, if_pos hv]
      rw [ih k (value >>> 7) (by omega) (by omega)]
    · cases f₂ with
      | zero =>
        have : value = 0 := by omega
        subst this
        simp [encode_varint_go]
      | succ k => simp [encode_varint_go, if_neg hv]

/-- The recurrence satisfied by `encode_varint`, matching the Python loop
step-for-step. -/
theorem encode_varint_eq (value : Nat) :
    encode_varint value =
      if 127 < value then ((value &&& 127) ||| 128) :: encode_varint (value >>> 7)
      else [value &&& 127] := by
  cases value with
  | zero => simp [encode_varint, encode_varint_go]
  | succ v =>
    show encode_varint_go (v + 1) (v + 1) = _
    by_cases hv : 127 < v + 1
    · simp only [encode_varint_go, if_pos hv]
      have hdiv : (v + 1) >>> 7 < v + 1 := by
        rw [Nat.shiftRight_eq_div_pow]
        exact Nat.div_lt_self (by omega) (by norm_num)
      rw [encode_varint_go_irrel v ((v + 1) >>> 7) ((v + 1) >>> 7) (by omega) (by omega)]
      rfl
    · simp [encode_varint_go, if_neg hv, hv]

theorem encode_varint_ne_nil (value : Nat) : encode_varint value ≠ [] := by
  rw [encode_varint_eq]
  split <;> simp

/-- One decode step inverts one encode step: `decode_varint_go` over the
encoding of `n` (followed by anything) accumulates `n <<< shift` into `value`
and advances `pos` by exactly the number of encoded bytes. -/
theorem decode_varint_go_encode :
    ∀ n rest pos shift value,
      decode_varint_go (encode_varint n ++ rest) pos shift value =
        some (value ||| (n <<< shift), pos + (encode_varint n).length) := by
  intro n
  induction n using Nat.strongRecOn with
  | ind n ih =>
    intro rest pos shift value
    rw [encode_varint_eq]
    by_cases h : 127 < n
    · have hdiv : n >>> 7 < n := by
        rw [Nat.shiftRight_eq_div_pow]
        exact Nat.div_lt_self (by omega) (by norm_num)
      simp only [if_pos h, List.cons_append, decode_varint_go,
        or128_and127, or128_and128 (and127_lt n), List.length_cons]
      rw [if_neg (by norm_num)]
      rw [ih (n >>> 7) hdiv rest (pos + 1) (shift + 7) (value ||| ((n &&& 127) &&& 127) <<< shift)]
      have hand : (n &&& 127) &&& 127 = n &&& 127 := by
        rw [Nat.and_assoc, Nat.and_self]
      rw [hand, Nat.or_assoc, shiftLeft_low7_decomp]
      have hlen : pos + 1 + (encode_varint (n >>> 7)).length =
          pos + ((encode_varint (n >>> 7)).length + 1) := by omega
      rw [hlen]
    · have hn : n < 128 := by omega
      simp only [if_neg h, List.singleton_append, decode_varint_go, List.length_singleton]
      rw [and127_of_lt hn, and127_of_lt hn, and128_of_lt hn, if_pos rfl]

/-- Same statement for the analyzer's `_read_varint`: decoding the encoding
of `n` consumes exactly its bytes and leaves the rest of the stream. -/
theorem read_varint_go_encode :
    ∀ n rest shift value,
      read_varint_go (encode_varint n ++ rest) shift value =
        (value ||| (n <<< shift), rest) := by
  intro n
  induction n using Nat.strongRecOn with
  | ind n ih =>
    intro rest shift value
    rw [encode_varint_eq]
    by_cases h : 127 < n
    · have hdiv : n >>> 7 < n := by
        rw [Nat.shiftRight_eq_div_pow]
        exact Nat.div_lt_self (by omega) (by norm_num)
      simp only [if_pos h, List.cons_append, read_varint_go,
        or128_and127, or128_and128 (and127_lt n)]
      rw [if_neg (by norm_num)]
      rw [ih (n >>> 7) hdiv rest (shift + 7) (value ||| ((n &&& 127) &&& 127) <<< shift)]
      have hand : (n &&& 127) &&& 127 = n &&& 127 := by
        rw [Nat.and_assoc, Nat.and_self]
      rw [hand, Nat.or_assoc, shiftLeft_low7_decomp]
    · have hn : n < 128 := by omega
      simp only [if_neg h, List.singleton_append, read_varint_go]
      rw [and127_of_lt hn, and127_of_lt hn, and128_of_lt hn, if_pos rfl]

theorem read_varint_encode (n : Nat) (rest : List Nat) :
    read_varint (encode_varint n ++ rest) = (n, rest) := by
  rw [read_varint, read_varint_go_encode, Nat.shiftLeft_zero, Nat.zero_or]

/-- The remainder returned by `read_varint_go` never exceeds the input. -/
theorem read_varint_go_length :
    ∀ s shift value, (read_varint_go s shift value).2.length ≤ s.length := by
  intro s
  induction s with
  | nil => intro _ _; simp [read_varint_go]
  | cons b bs ih =>
    intro shift value
    simp only [read_varint_go]
    split
    · simp
    · exact le_trans (ih _ _) (by simp)

theorem read_varint_length (s : List Nat) : (read_varint s).2.length ≤ s.length :=
  read_varint_go_length s 0 0

theorem packLE_length : ∀ width value, (packLE width value).length = width := by
  intro width
  induction width with
  | zero => intro _; rfl
  | succ w ih => intro value; simp [packLE, ih]

theorem readFixed_length {k : Nat} {s r : List Nat} {v : Nat}
    (h : readFixed k s = .ok (v, r)) : r.length ≤ s.length := by
  unfold readFixed at h
  split at h
  · exact absurd h (by simp)
  · simp only [Except.ok.injEq, Prod.mk.injEq] at h
    rw [← h.2]
    simp

theorem readFixed_full (k : Nat) (pre rest : List Nat) (h : pre.length = k) :
    readFixed k (pre ++ rest) = .ok (unpackLE pre, rest) := by
  subst h
  unfold readFixed
  rw [if_neg (by simp)]
  rw [List.take_append_of_le_length (by omega), List.drop_append_of_le_length (by omega)]
  rw [List.take_length, List.drop_length, List.nil_append]

/-- Batteries' computable `Rat.floor` agrees with the `⌊⌋` notation. -/
theorem rat_floor_eq_intFloor (q : ℚ) : q.floor = ⌊q⌋ :=
  (Rat.floor_def' q).trans Rat.floor_def.symm

theorem read_varint_go_highbits :
    ∀ (s : List Nat) (shift value : Nat), (∀ b ∈ s, b &&& 128 ≠ 0) →
      read_varint_go s shift value = (0, []) := by
  intro s
  induction s with
  | nil => intro _ _ _; rfl
  | cons b bs ih =>
    intro shift value h
    have hb : b &&& 128 ≠ 0 := h b (by simp)
    simp only [read_varint_go, if_neg hb]
    exact ih _ _ (fun x hx => h x (by simp [hx]))

/-! ## Claim theorems -/

/-- C5: for every `n ≤ 2⁶⁴ − 1`, decoding the bytes produced by
`encode_varint n` (at any offset, with any trailing bytes) with
`decode_varint` yields `n` back and advances the offset by exactly the
number of bytes `encode_varint` produced. -/
theorem varint_roundtrip (n : Nat) (pre rest : List Nat) (h : n ≤ 2 ^ 64 - 1) :
    decode_varint (pre ++ (encode_varint n ++ rest)) pre.length =
      some (n, pre.length + (encode_varint n).length) := by
  unfold decode_varint
  rw [List.drop_left, decode_varint_go_encode, Nat.shiftLeft_zero, Nat.zero_or]

/-- Witness for C5 at `n = 300`, offset 1. -/
theorem varint_roundtrip_witness :
    300 ≤ 2 ^ 64 - 1 ∧
      decode_varint ([7] ++ (encode_varint 300 ++ [9])) [7].length =
        some (300, [7].length + (encode_varint 300).length) :=
  ⟨by norm_num, varint_roundtrip 300 [7] [9] (by norm_num)⟩

/-- C10: whenever the analyzer's varint reader hits end-of-file before the
varint terminates (every remaining byte has the continuation bit set,
including the case of no remaining byte at all), it returns 0 — not an
error — so a field truncated mid-varint decodes as the value 0 and event
parsing continues. -/
theorem read_varint_eof_returns_zero (s : List Nat)
    (h : ∀ b ∈ s, b &&& 128 ≠ 0) : read_varint s = (0, []) :=
  read_varint_go_highbits s 0 0 h

/-- Witness for C10 on the two-byte unterminated stream `[0x80, 0xC8]`. -/
theorem read_varint_eof_returns_zero_witness :
    (∀ b ∈ [128, 200], b &&& 128 ≠ 0) ∧ read_varint [128, 200] = (0, []) :=
  ⟨by decide, read_varint_eof_returns_zero [128, 200] (by decide)⟩

/-- C1 (code bug): a start/capture/stop run with one tracked allocation
produces a file whose ALLOC event references stack id 0 while the header
metadata's interned stack table — written at start and never rewritten by
`stop`/`close` — is empty, violating the claimed invariant.  The tracer's
own comment (tracer.py:87, "will be updated with metadata on close")
promises the rewrite that `TraceWriter.close` does not perform. -/
theorem header_metadata_not_rewritten :
    singleAllocRun.file.events = [encode_alloc_event 0 0 1024 0 1] ∧
      singleAllocRun.fmt.stack_traces ≠ [] ∧
      singleAllocRun.file.header_stack_traces = [] ∧
      0 ∉ headerStackIds singleAllocRun.file := by
  refine ⟨by decide, by decide, by decide, by decide⟩

/-- C2 (code bug): the spec's mark/allocate/mark scenario.  The analyzer's
event loop has no branch for tag 3, so a MARKER's `name_id` varint is left
unconsumed and is misread as the next event's type byte; on this stream the
cascade ends in a `struct.error` and `cmd_analyze` exits 1 instead of
parsing two MARKER events and reporting. -/
theorem marker_scenario_misparsed :
    cmd_analyze_events markerScenarioStream 0 =
      .error "struct.error: unpack requires more bytes" ∧
      cmd_analyze_exit markerScenarioStream 0 = 1 :=
  ⟨rfl, rfl⟩

/-- C9 counterexample: with instance 0 active (and registered as the
process-wide active tracer), starting a fresh instance 1 does not fail with
`AlreadyActive`: it succeeds and silently replaces the active tracer. -/
theorem second_start_succeeds :
    memoryTracer_start 1 ⟨[true, false], some 0⟩ =
      .ok ⟨[true, true], some 1⟩ ∧ (some 1 : Option Nat) ≠ some 0 :=
  ⟨rfl, by decide⟩

/-- C9 (amended): `MemoryTracer.start` consults only the instance's own
`is_active` flag.  It raises `RuntimeError` exactly when that instance is
already active; starting an instance that is not itself active — in
particular the brand-new instance built by the module-level `start()` —
succeeds even while another tracer is active, and overwrites the
process-wide `_active_tracer` handle. -/
theorem start_checks_only_self (id : Nat) (w : TracerWorld) :
    (w.instances.getD id false = true →
      memoryTracer_start id w = .error "RuntimeError: Tracer is already active") ∧
    (w.instances.getD id false = false →
      memoryTracer_start id w = .ok ⟨w.instances.set id true, some id⟩) ∧
    module_start w =
      .ok ⟨(w.instances ++ [false]).set w.instances.length true,
            some w.instances.length⟩ := by
  refine ⟨fun h => ?_, fun h => ?_, ?_⟩
  · rw [memoryTracer_start, if_pos h]
  · rw [memoryTracer_start, if_neg (by rw [h]; exact Bool.false_ne_true)]
  · have hg : (w.instances ++ [false]).getD w.instances.length false = false := by
      rw [List.getD_append_right _ _ _ _ (le_refl _)]
      simp
    rw [module_start, memoryTracer_start, if_neg (by simp [hg])]

/-- Witness for C9's amended theorem: instance 0 already active on its own
flag, so its `start` raises; and instance 1 (inactive) starts fine. -/
theorem start_checks_only_self_witness :
    ([true, false].getD 0 false = true →
      memoryTracer_start 0 ⟨[true, false], some 0⟩ =
        .error "RuntimeError: Tracer is already active") ∧
    memoryTracer_start 0 ⟨[true, false], some 0⟩ =
      .error "RuntimeError: Tracer is already active" ∧
    memoryTracer_start 1 ⟨[true, false], some 0⟩ =
      .ok ⟨[true, true], some 1⟩ :=
  ⟨(start_checks_only_self 0 ⟨[true, false], some 0⟩).1,
   (start_checks_only_self 0 ⟨[true, false], some 0⟩).1 (by decide),
   by
    have h := (start_checks_only_self 1 ⟨[true, false], some 0⟩).2.1 (by decide)
    simpa using h⟩

/-- C8 counterexample: `encode_free_event 5 7` is a well-formed one-event
stream on which `cmd_analyze` exits 0; truncating its last 3 bytes (the
spec's own scenario) makes the analyzer raise `struct.error` and exit 1 —
no report, no truncation note. -/
theorem truncated_trace_does_not_exit_zero :
    cmd_analyze_exit (encode_free_event 5 7) 0 = 0 ∧
      cmd_analyze_exit
        ((encode_free_event 5 7).take ((encode_free_event 5 7).length - 3)) 0 = 1 :=
  ⟨rfl, rfl⟩

/-- C3 counterexample: with `sample_rate = 1/2` (stride 2) a lone
deallocation stat (`size_diff = −100`) is discarded by sampling, and with
`sample_rate = 3/8` the code's stride `int(1/rate) = 2` differs from the
spec's `round(1/rate) = 3`. -/
theorem sampling_spec_counterexample :
    sample_threshold (1 / 2) = 2 ∧
      (process_snapshot_diff (1 / 2) (sample_threshold (1 / 2)) [(-100 : ℤ)] 0).1 = [] ∧
      sample_threshold (3 / 8) = 2 ∧
      spec_sampling_stride (3 / 8) = 3 ∧
      (2 : ℤ) ≠ 3 := by
  have hhalf : sample_threshold (1 / 2) = 2 := by
    rw [sample_threshold, if_pos (by norm_num), rat_floor_eq_intFloor]
    norm_num
    decide
  refine ⟨hhalf, ?_, ?_, ?_, by decide⟩
  · rw [hhalf]
    simp only [process_snapshot_diff, if_pos (by norm_num : (1 / 2 : ℚ) < 1)]
    norm_num
  · rw [sample_threshold, if_pos (by norm_num), rat_floor_eq_intFloor]
    norm_num
    decide
  · rw [spec_sampling_stride, round_eq]
    norm_num

/-- C3 (amended): when `sample_rate < 1` the tracer's stride is
`int(1 / sample_rate)` — truncation, not rounding — and the sampling gate
(`allocation_count % sample_threshold`) is applied to every snapshot-diff
stat before the allocation/deallocation sign is examined, so deallocations
are discarded by sampling exactly like allocations; the admitted stats
produce ALLOC events for positive diffs and FREE events for negative ones.
Only GC events bypass sampling (`_on_gc` writes unconditionally on the
`"stop"` phase). -/
theorem sampling_truncates_and_gates_all_stats (q : ℚ) (h0 : 0 < q) (h1 : q < 1) :
    sample_threshold q = (⌊1 / q⌋).toNat
    ∧ (∀ ds cnt, (process_snapshot_diff q (sample_threshold q) ds cnt).2 = cnt + ds.length)
    ∧ (∀ d ds cnt, (cnt + 1) % sample_threshold q ≠ 0 →
        process_snapshot_diff q (sample_threshold q) (d :: ds) cnt =
          process_snapshot_diff q (sample_threshold q) ds (cnt + 1))
    ∧ (∀ d ds cnt, (cnt + 1) % sample_threshold q = 0 →
        (process_snapshot_diff q (sample_threshold q) (d :: ds) cnt).1 =
          (diffEvent d).toList ++ (process_snapshot_diff q (sample_threshold q) ds (cnt + 1)).1)
    ∧ (∀ delta collected, on_gc "stop" delta collected =
        some (encode_gc_event delta collected 0)) := by
  refine ⟨?_, ?_, ?_, ?_, ?_⟩
  · rw [sample_threshold, if_pos h1, rat_floor_eq_intFloor]
  · intro ds
    induction ds with
    | nil => intro cnt; rfl
    | cons d ds ih =>
      intro cnt
      simp only [process_snapshot_diff, if_pos h1]
      by_cases hm : (cnt + 1) % sample_threshold q ≠ 0
      · rw [if_pos hm, ih]
        simp only [List.length_cons]
        omega
      · rw [if_neg hm]
        cases hd : diffEvent d with
        | some e =>
          simp only [ih, List.length_cons]
          omega
        | none =>
          rw [ih]
          simp only [List.length_cons]
          omega
  · intro d ds cnt hm
    simp only [process_snapshot_diff, if_pos h1, if_pos hm]
  · intro d ds cnt hm
    simp only [process_snapshot_diff, if_pos h1, if_neg (not_not_intro hm)]
    cases hd : diffEvent d with
    | some e => simp [hd, hm]
    | none => simp [hd, hm]
  · intro delta collected
    rw [on_gc, if_neg (by simp)]

/-- Witness for C3's amended theorem at `sample_rate = 1/2`. -/
theorem sampling_truncates_and_gates_all_stats_witness :
    (0 : ℚ) < 1 / 2 ∧ (1 / 2 : ℚ) < 1 ∧
      sample_threshold (1 / 2) = (⌊(1 : ℚ) / (1 / 2)⌋).toNat ∧
      process_snapshot_diff (1 / 2) (sample_threshold (1 / 2)) [(-7 : ℤ)] 0 =
        process_snapshot_diff (1 / 2) (sample_threshold (1 / 2)) [] 1 :=
  ⟨by norm_num, by norm_num,
    (sampling_truncates_and_gates_all_stats (1 / 2) (by norm_num) (by norm_num)).1,
    (sampling_truncates_and_gates_all_stats (1 / 2) (by norm_num)
      (by norm_num)).2.2.1 (-7) [] 0 (by
        rw [(sampling_truncates_and_gates_all_stats (1 / 2) (by norm_num) (by norm_num)).1]
        norm_num
        decide)⟩

/-! ### Replay-state lemmas for the leak-set claim -/

/-- One replay step preserves the correspondence between "leaked at `addr`"
and "last ALLOC/FREE mention of `addr` was an ALLOC". -/
theorem replayStep_leak_mention (st : AnState) (acc : Option Bool) (addr : Nat)
    (e : AEvent) (h : isLeaked st addr = true ↔ acc = some true) :
    isLeaked (replayStep st e) addr = true ↔ mentionStep addr acc e = some true := by
  cases e with
  | alloc dl a sz sid =>
    by_cases ha : a = addr
    · subst ha
      simp [replayStep, applyAlloc, isLeaked, mentionStep]
    · have ha' : ¬ addr = a := fun hx => ha hx.symm
      simpa [replayStep, applyAlloc, isLeaked, mentionStep, ha, ha'] using h
  | free dl a =>
    by_cases ha : a = addr
    · subst ha
      cases hm : st.allocations a with
      | some info => simp [replayStep, applyFree, isLeaked, mentionStep, hm]
      | none => simp [replayStep, applyFree, isLeaked, mentionStep, hm]
    · have ha' : ¬ addr = a := fun hx => ha hx.symm
      cases hm : st.allocations a with
      | some info => simpa [replayStep, applyFree, isLeaked, mentionStep, ha, ha', hm] using h
      | none => simpa [replayStep, applyFree, isLeaked, mentionStep, ha, ha', hm] using h
  | gc dl ob bf =>
    simpa [replayStep, applyGc, isLeaked, mentionStep] using h

theorem foldl_leak_mention :
    ∀ (evs : List AEvent) (st : AnState) (acc : Option Bool) (addr : Nat),
      (isLeaked st addr = true ↔ acc = some true) →
      (isLeaked (evs.foldl replayStep st) addr = true ↔
        evs.foldl (mentionStep addr) acc = some true) := by
  intro evs
  induction evs with
  | nil => intro st acc addr h; simpa using h
  | cons e es ih =>
    intro st acc addr h
    exact ih _ _ _ (replayStep_leak_mention st acc addr e h)

/-- A FREE for an address with no entry leaves the allocation map untouched
(the `if address in allocations` guard fails). -/
theorem applyFree_none {st : AnState} {addr : Nat}
    (h : st.allocations addr = none) :
    (applyFree st addr).allocations = st.allocations := by
  unfold applyFree
  rw [h]

/-- If no ALLOC event in the stream mentions `addr`, the replayed allocation
map has no entry at `addr`. -/
theorem foldl_allocations_none :
    ∀ (evs : List AEvent) (st : AnState) (addr : Nat),
      hasAllocOn evs addr = false → st.allocations addr = none →
      (evs.foldl replayStep st).allocations addr = none := by
  intro evs
  induction evs with
  | nil => intro st addr _ h0; simpa using h0
  | cons e es ih =>
    intro st addr hno h0
    have hno' : hasAllocOn es addr = false := by
      simp only [hasAllocOn, List.any_cons, Bool.or_eq_false_iff] at hno
      exact hno.2
    refine ih _ _ hno' ?_
    cases e with
    | alloc dl a sz sid =>
      have ha : ¬ a = addr := by
        simp only [hasAllocOn, List.any_cons, Bool.or_eq_false_iff] at hno
        simpa using hno.1
      have ha' : ¬ addr = a := fun hx => ha hx.symm
      simp [replayStep, applyAlloc, ha', h0]
    | free dl a =>
      cases hm : st.allocations a with
      | some info =>
        have ha' : ¬ addr = a := by
          intro hx
          rw [hx] at h0
          rw [h0] at hm
          exact Option.noConfusion hm
        simp [replayStep, applyFree, hm, ha', h0]
      | none => simp [replayStep, applyFree, hm, h0]
    | gc dl ob bf => simp [replayStep, applyGc, h0]

/-- C4: after the analyzer replays an event stream, an address is in the
leak set (has an entry with `freed = False`) iff the most recent ALLOC/FREE
event mentioning that address was an ALLOC; and a FREE whose address has
never appeared in an ALLOC leaves the allocation map unchanged. -/
theorem leak_set_iff_last_mention_alloc (evs : List AEvent) (start_time addr : Nat) :
    (isLeaked (replay evs start_time) addr = true ↔ lastMention evs addr = some true)
    ∧ (hasAllocOn evs addr = false → ∀ d,
        (replay (evs ++ [AEvent.free d addr]) start_time).allocations =
          (replay evs start_time).allocations) := by
  constructor
  · exact foldl_leak_mention evs (initAnState start_time) none addr
      (by simp [isLeaked, initAnState])
  · intro hno d
    have hnone : (replay evs start_time).allocations addr = none :=
      foldl_allocations_none evs (initAnState start_time) addr hno rfl
    have hstep : replay (evs ++ [AEvent.free d addr]) start_time =
        replayStep (replay evs start_time) (AEvent.free d addr) := by
      simp [replay, List.foldl_append]
    rw [hstep]
    exact applyFree_none hnone

/-- Witness for C4: a stream that allocates at address 5 only; a FREE of the
never-allocated address 7 leaves the allocation map unchanged. -/
theorem leak_set_iff_last_mention_alloc_witness :
    hasAllocOn [AEvent.alloc 0 5 10 0] 7 = false ∧
      (replay ([AEvent.alloc 0 5 10 0] ++ [AEvent.free 3 7]) 0).allocations =
        (replay [AEvent.alloc 0 5 10 0] 0).allocations :=
  ⟨by decide, (leak_set_iff_last_mention_alloc [AEvent.alloc 0 5 10 0] 0 7).2 (by decide) 3⟩

/-! ### Ring-buffer lemmas for the writer claims -/

/-- Full behaviour of a single `write_event` call under the reachable
invariant `queue length ≤ max_queue_size` with a positive capacity: it never
raises, drops the head exactly when full, and in both cases the total of
dropped events plus queued events grows by one. -/
theorem write_event_spec (st : WSt) (e : List Nat) (hpos : 0 < st.max_queue_size)
    (hlen : st.queue.length ≤ st.max_queue_size) :
    ∃ st', write_event st e = .ok st'
      ∧ st'.max_queue_size = st.max_queue_size
      ∧ st'.events_written = st.events_written
      ∧ st'.queue.length ≤ st.max_queue_size
      ∧ st'.events_dropped + st'.queue.length =
          st.events_dropped + st.queue.length + 1
      ∧ (st.queue.length = st.max_queue_size →
          st'.queue = st.queue.tail ++ [e] ∧
            st'.events_dropped = st.events_dropped + 1)
      ∧ (st.queue.length < st.max_queue_size →
          st'.queue = st.queue ++ [e] ∧
            st'.events_dropped = st.events_dropped) := by
  by_cases hfull : st.max_queue_size ≤ st.queue.length
  · have heq : st.queue.length = st.max_queue_size := le_antisymm hlen hfull
    cases hq : st.queue with
    | nil =>
      exfalso
      rw [hq] at heq
      simp only [List.length_nil] at heq
      omega
    | cons hd tl =>
      have hlen' : tl.length + 1 = st.max_queue_size := by
        have h2 := heq
        rw [hq] at h2
        simpa using h2
      refine ⟨{ st with queue := tl ++ [e], events_dropped := st.events_dropped + 1 },
        ?_, rfl, rfl, ?_, ?_, ?_, ?_⟩
      · rw [write_event, if_pos hfull, hq]
      · simp only [List.length_append, List.length_cons, List.length_nil]
        omega
      · simp only [List.length_append, List.length_cons, List.length_nil]
        omega
      · intro _
        exact ⟨rfl, rfl⟩
      · intro hcon
        simp only [List.length_cons] at hcon
        omega
  · push_neg at hfull
    refine ⟨{ st with queue := st.queue ++ [e] }, ?_, rfl, rfl, ?_, ?_, ?_, ?_⟩
    · rw [write_event, if_neg (by omega)]
    · simp only [List.length_append, List.length_cons, List.length_nil]
      omega
    · simp only [List.length_append, List.length_cons, List.length_nil]
      omega
    · intro hcon
      omega
    · intro _
      exact ⟨rfl, rfl⟩

/-- Running a burst of enqueues with no drains: the final queue is the
suffix of the enqueued list of length `min max_queue_size total`, i.e. the
most recent events in FIFO order, and drops account for the overflow. -/
theorem runWrites_spec :
    ∀ (es : List (List Nat)) (st : WSt), 0 < st.max_queue_size →
      st.queue.length ≤ st.max_queue_size →
      ∃ st', runWrites st es = .ok st'
        ∧ st'.max_queue_size = st.max_queue_size
        ∧ st'.events_written = st.events_written
        ∧ st'.queue.length ≤ st.max_queue_size
        ∧ st'.queue = (st.queue ++ es).drop (st.queue.length + es.length - st.max_queue_size)
        ∧ st'.events_dropped + st'.queue.length =
            st.events_dropped + st.queue.length + es.length := by
  intro es
  induction es with
  | nil =>
    intro st hpos hlen
    refine ⟨st, rfl, rfl, rfl, hlen, ?_, by simp⟩
    simp only [List.length_nil, List.append_nil, Nat.add_zero]
    rw [show st.queue.length - st.max_queue_size = 0 by omega, List.drop_zero]
  | cons e es ih =>
    intro st hpos hlen
    obtain ⟨st1, hw, hmax1, hwr1, hlen1, hsum1, hfull1, hnot1⟩ :=
      write_event_spec st e hpos hlen
    obtain ⟨st2, hrun, hmax2, hwr2, hlen2, hq2, hsum2⟩ :=
      ih st1 (by omega) (by omega)
    refine ⟨st2, ?_, by omega, by rw [hwr2, hwr1], by omega, ?_, ?_⟩
    · rw [runWrites, hw]
      exact hrun
    · rw [hq2]
      by_cases hfull : st.queue.length = st.max_queue_size
      · obtain ⟨hq1, _⟩ := hfull1 hfull
        cases hq : st.queue with
        | nil =>
          exfalso
          rw [hq] at hfull
          simp at hfull
          omega
        | cons hd tl =>
          rw [hq1, hq, hmax1]
          simp only [List.tail_cons]
          have h1 : tl ++ [e] ++ es = tl ++ (e :: es) := by
            rw [List.append_assoc]
            rfl
          have h2 : (hd :: tl) ++ (e :: es) = hd :: (tl ++ (e :: es)) := rfl
          rw [h1, h2]
          have hlt : tl.length + 1 = st.max_queue_size := by
            rw [← hfull, hq]
            simp
          have hidx1 : (tl ++ [e]).length + es.length - st.max_queue_size = es.length := by
            simp only [List.length_append, List.length_cons, List.length_nil]
            omega
          have hidx2 : (hd :: tl).length + (e :: es).length - st.max_queue_size =
              es.length + 1 := by
            simp only [List.length_cons]
            omega
          rw [hidx1, hidx2, List.drop_succ_cons]
      · have hlt : st.queue.length < st.max_queue_size := by omega
        obtain ⟨hq1, _⟩ := hnot1 hlt
        rw [hq1, hmax1, List.append_assoc]
        have h1 : [e] ++ es = e :: es := rfl
        rw [h1]
        congr 1
        simp only [List.length_append, List.length_cons, List.length_nil]
        omega
    · simp only [List.length_cons]
      omega

/-- Conservation of events across any schedule of locked enqueues and
worker drains: written + dropped + queued never deviates from the number of
enqueues. -/
theorem runOps_spec :
    ∀ (ops : List WOp) (st : WSt), 0 < st.max_queue_size →
      st.queue.length ≤ st.max_queue_size →
      ∃ st', runOps st ops = .ok st'
        ∧ st'.max_queue_size = st.max_queue_size
        ∧ st'.queue.length ≤ st.max_queue_size
        ∧ st'.events_written + st'.events_dropped + st'.queue.length =
            st.events_written + st.events_dropped + st.queue.length + enqCount ops := by
  intro ops
  induction ops with
  | nil =>
    intro st hpos hlen
    exact ⟨st, rfl, rfl, hlen, by simp [enqCount]⟩
  | cons op ops ih =>
    intro st hpos hlen
    cases op with
    | enq e =>
      obtain ⟨st1, hw, hmax1, hwr1, hlen1, hsum1, _, _⟩ := write_event_spec st e hpos hlen
      obtain ⟨st2, hrun, hmax2, hlen2, hsum2⟩ := ih st1 (by omega) (by omega)
      refine ⟨st2, ?_, by omega, by omega, ?_⟩
      · rw [runOps]
        simp only [stepOp]
        rw [hw]
        exact hrun
      · have hc : enqCount (WOp.enq e :: ops) = enqCount ops + 1 := by
          simp [enqCount, List.countP_cons]
        rw [hc]
        omega
    | drain =>
      have hk : min 1000 st.queue.length ≤ st.queue.length := Nat.min_le_right _ _
      have hq1 : (drainBatch st).queue.length = st.queue.length - min 1000 st.queue.length := by
        simp [drainBatch]
      have hw1 : (drainBatch st).events_written =
          st.events_written + min 1000 st.queue.length := rfl
      have hd1 : (drainBatch st).events_dropped = st.events_dropped := rfl
      have hm1 : (drainBatch st).max_queue_size = st.max_queue_size := rfl
      obtain ⟨st2, hrun, hmax2, hlen2, hsum2⟩ := ih (drainBatch st)
        (by omega) (by omega)
      refine ⟨st2, ?_, by omega, by omega, ?_⟩
      · rw [runOps]
        simp only [stepOp]
        exact hrun
      · have hc : enqCount (WOp.drain :: ops) = enqCount ops := by
          simp [enqCount, List.countP_cons]
        rw [hc]
        omega

/-- C6: `write_event` never raises on a full buffer: when the queue already
holds `max_queue_size` events (capacity positive), the oldest event is
discarded, the new event is admitted at the tail, and `events_dropped`
increases by exactly one; after any enqueue the queue length never exceeds
`max_queue_size`, and after any burst of enqueues the surviving events are
exactly the most recent ones in FIFO order. -/
theorem write_event_never_raises :
    (∀ (st : WSt) (e : List Nat), 0 < st.max_queue_size →
      st.queue.length ≤ st.max_queue_size →
      ∃ st', write_event st e = .ok st'
        ∧ st'.queue.length ≤ st.max_queue_size
        ∧ (st.queue.length = st.max_queue_size →
            st'.queue = st.queue.tail ++ [e] ∧
              st'.events_dropped = st.events_dropped + 1)
        ∧ (st.queue.length < st.max_queue_size →
            st'.queue = st.queue ++ [e] ∧
              st'.events_dropped = st.events_dropped))
    ∧ (∀ (maxq : Nat) (es : List (List Nat)), 0 < maxq →
        ∃ stf, runWrites (WSt.fresh maxq) es = .ok stf
          ∧ stf.queue = es.drop (es.length - maxq)
          ∧ stf.queue.length ≤ maxq
          ∧ stf.events_dropped + stf.queue.length = es.length) := by
  constructor
  · intro st e hpos hlen
    obtain ⟨st', hw, _, _, hl, _, hfull, hnot⟩ := write_event_spec st e hpos hlen
    exact ⟨st', hw, hl, hfull, hnot⟩
  · intro maxq es hpos
    obtain ⟨stf, hrun, hmax, hwr, hl, hq, hsum⟩ :=
      runWrites_spec es (WSt.fresh maxq) hpos (by simp [WSt.fresh])
    refine ⟨stf, hrun, ?_, hl, ?_⟩
    · simpa [WSt.fresh] using hq
    · simpa [WSt.fresh] using hsum

/-- Witness for C6: a full one-slot queue drops its head on enqueue, and a
burst of three enqueues into a fresh two-slot writer keeps the last two. -/
theorem write_event_never_raises_witness :
    0 < 1 ∧
      write_event ⟨[[9]], 1, 0, 0⟩ [5] = .ok ⟨[[5]], 1, 0, 1⟩ ∧
      runWrites (WSt.fresh 2) [[1], [2], [3]] = .ok ⟨[[2], [3]], 2, 0, 1⟩ := by
  refine ⟨by decide, ?_, ?_⟩
  · obtain ⟨st', hw, _, hfull, _⟩ :=
      write_event_never_raises.1 ⟨[[9]], 1, 0, 0⟩ [5] (by decide) (by decide)
    exact rfl
  · obtain ⟨stf, hrun, hq, _, _⟩ :=
      write_event_never_raises.2 2 [[1], [2], [3]] (by decide)
    exact rfl

/-- C7: over any schedule of enqueues and worker drains followed by `close`,
the number of successful enqueues equals `events_written + events_dropped`;
at every intermediate point it equals
`events_written + events_dropped + queue length`. -/
theorem drop_accounting (maxq : Nat) (ops : List WOp) (hpos : 0 < maxq) :
    ∃ st', runOps (WSt.fresh maxq) ops = .ok st'
      ∧ st'.events_written + st'.events_dropped + st'.queue.length = enqCount ops
      ∧ (closeWriter st').events_written + (closeWriter st').events_dropped =
          enqCount ops := by
  obtain ⟨st', hrun, hmax, hlen, hsum⟩ :=
    runOps_spec ops (WSt.fresh maxq) hpos (by simp [WSt.fresh])
  refine ⟨st', hrun, by simpa [WSt.fresh] using hsum, ?_⟩
  simp only [closeWriter]
  simp only [WSt.fresh] at hsum
  simp at hsum
  omega

/-- Witness for C7: two enqueues and one drain through a one-slot writer:
one event written, one dropped, queue empty — written + dropped = enqueues. -/
theorem drop_accounting_witness :
    0 < 1 ∧
      runOps (WSt.fresh 1) [WOp.enq [4], WOp.enq [5], WOp.drain] = .ok ⟨[], 1, 1, 1⟩ ∧
      1 + 1 + 0 = enqCount [WOp.enq [4], WOp.enq [5], WOp.drain] := by
  refine ⟨by decide, ?_, by decide⟩
  obtain ⟨st', hrun, hsum, hclose⟩ :=
    drop_accounting 1 [WOp.enq [4], WOp.enq [5], WOp.drain] (by decide)
  exact rfl

/-! ### Event-loop lemmas for the truncation claim -/

/-- A successfully parsed event never returns more stream than it was
given. -/
theorem parseEvent_length {t : Nat} {rest r' : List Nat} {st st' : AnState}
    (h : parseEvent t rest st = .ok (st', r')) : r'.length ≤ rest.length := by
  simp only [parseEvent] at h
  split at h
  · -- t = 0 : ALLOC
    split at h
    · exact Except.noConfusion h
    · rename_i address r2 hf
      split at h
      · exact Except.noConfusion h
      · rename_i tid r5 hf2
        injection h with h1
        injection h1 with h2 h3
        subst h3
        calc r5.length
            ≤ (read_varint (read_varint r2).2).2.length := readFixed_length hf2
          _ ≤ (read_varint r2).2.length := read_varint_length _
          _ ≤ r2.length := read_varint_length _
          _ ≤ (read_varint rest).2.length := readFixed_length hf
          _ ≤ rest.length := read_varint_length _
  · split at h
    · -- t = 1 : FREE
      split at h
      · exact Except.noConfusion h
      · rename_i address r2 hf
        injection h with h1
        injection h1 with h2 h3
        subst h3
        calc r2.length
            ≤ (read_varint rest).2.length := readFixed_length hf
          _ ≤ rest.length := read_varint_length _
    · split at h
      · -- t = 2 : GC
        injection h with h1
        injection h1 with h2 h3
        subst h3
        calc (read_varint (read_varint (read_varint rest).2).2).2.length
            ≤ (read_varint (read_varint rest).2).2.length := read_varint_length _
          _ ≤ (read_varint rest).2.length := read_varint_length _
          _ ≤ rest.length := read_varint_length _
      · -- any other tag: only the delta varint is consumed
        injection h with h1
        injection h1 with h2 h3
        subst h3
        exact read_varint_length _

/-- The fuel is irrelevant as soon as it covers the stream length: every
iteration consumes at least the event-type byte. -/
theorem analyzeLoopF_irrel :
    ∀ (fuel : Nat) (s : List Nat) (st : AnState), s.length ≤ fuel →
      analyzeLoopF fuel s st = analyzeLoopF s.length s st := by
  intro fuel
  induction fuel using Nat.strongRecOn with
  | ind fuel ih =>
    intro s st hle
    cases s with
    | nil => cases fuel <;> rfl
    | cons t rest =>
      simp only [List.length_cons] at hle ⊢
      obtain ⟨k, rfl⟩ : ∃ k, fuel = k + 1 := ⟨fuel - 1, by omega⟩
      simp only [analyzeLoopF]
      cases hp : parseEvent t rest st with
      | error e => rfl
      | ok p =>
        obtain ⟨st', r'⟩ := p
        have hr : r'.length ≤ rest.length := parseEvent_length hp
        simp only [hp]
        rw [ih k (by omega) r' st' (by omega)]
        rw [ih rest.length (by omega) r' st' (by omega)]

/-- Parsing one well-formed FREE event consumes exactly its bytes and
applies the FREE branch. -/
theorem parseEvent_free (d a : Nat) (rest : List Nat) (st : AnState) :
    parseEvent 1 ((encode_varint d ++ packLE 8 a) ++ rest) st =
      .ok (applyFree { st with event_count := st.event_count + 1,
                               current_time := st.current_time + d }
            (unpackLE (packLE 8 a)), rest) := by
  simp [parseEvent, List.append_assoc, read_varint_encode,
    readFixed_full 8 (packLE 8 a) rest (packLE_length 8 a)]

/-- Stepping the analyzer loop over one well-formed FREE event. -/
theorem analyzeLoopF_free_step (d a : Nat) (rest : List Nat) (st : AnState) :
    analyzeLoopF (encode_free_event d a ++ rest).length
        (encode_free_event d a ++ rest) st =
      analyzeLoopF rest.length rest
        (applyFree { st with event_count := st.event_count + 1,
                             current_time := st.current_time + d }
          (unpackLE (packLE 8 a))) := by
  have hlen : (encode_free_event d a ++ rest).length =
      ((encode_varint d).length + 8 + rest.length) + 1 := by
    simp [encode_free_event, packLE_length]
    omega
  have hcons : encode_free_event d a ++ rest =
      1 :: ((encode_varint d ++ packLE 8 a) ++ rest) := by
    simp [encode_free_event]
  rw [hlen, hcons]
  simp only [analyzeLoopF]
  rw [parseEvent_free]
  exact analyzeLoopF_irrel _ rest _ (by omega)

/-- On a stream ending in a FREE event whose 8-byte address field was
truncated to 5 bytes, the loop aborts with `struct.error` whatever came
before. -/
theorem analyzeLoopF_trunc_free :
    ∀ (frees : List (Nat × Nat)) (d a : Nat) (st : AnState),
      analyzeLoopF (freeEventsBytes frees ++ truncatedFreeTail d a).length
          (freeEventsBytes frees ++ truncatedFreeTail d a) st =
        .error "struct.error: unpack requires more bytes" := by
  intro frees
  induction frees with
  | nil =>
    intro d a st
    simp only [freeEventsBytes, List.map_nil, List.flatten_nil, List.nil_append]
    have hlen : (truncatedFreeTail d a).length = ((encode_varint d).length + 5) + 1 := by
      simp [truncatedFreeTail, List.length_take, packLE_length]
    rw [hlen]
    show analyzeLoopF _ (1 :: (encode_varint d ++ (packLE 8 a).take 5)) st = _
    simp only [analyzeLoopF]
    have hp : parseEvent 1 (encode_varint d ++ (packLE 8 a).take 5) st =
        .error "struct.error: unpack requires more bytes" := by
      have hrf : readFixed 8 ((packLE 8 a).take 5) =
          .error "struct.error: unpack requires more bytes" := by
        unfold readFixed
        rw [if_pos (by simp [List.length_take, packLE_length])]
      simp [parseEvent, read_varint_encode, hrf]
    rw [hp]
  | cons p ps ih =>
    intro d a st
    have hstream : freeEventsBytes (p :: ps) ++ truncatedFreeTail d a =
        encode_free_event p.1 p.2 ++ (freeEventsBytes ps ++ truncatedFreeTail d a) := by
      simp [freeEventsBytes, List.append_assoc]
    rw [hstream, analyzeLoopF_free_step]
    exact ih d a _

/-- C8 (amended): EOF inside a fixed-width field is not tolerated: for a
trace whose event stream is any sequence of well-formed FREE events
followed by a FREE event truncated 3 bytes short (mid-address, the spec's
truncate-3-bytes example), `cmd_analyze` does not discard the partial event
and report — the short `struct` read raises, no report is emitted, and the
exit code is 1, for every such prefix, delta and address.  (EOF inside a
varint field, by contrast, silently decodes as 0 — see the C10 theorem —
and no truncation note exists on any path.)  The exit code is not even
uniformly 1 across truncated streams: a MARKER-desynchronized prefix can
absorb the same truncated tail into a bogus size-1 ALLOC ending exactly at
EOF, so the analyzer parses "to completion" and exits 0. -/
theorem truncation_aborts_with_exit_one (frees : List (Nat × Nat))
    (d a start_time : Nat) :
    cmd_analyze_exit (freeEventsBytes frees ++ truncatedFreeTail d a) start_time = 1 ∧
      cmd_analyze_exit markersThenTruncatedFree 0 = 0 := by
  refine ⟨?_, rfl⟩
  rw [cmd_analyze_exit, cmd_analyze_events, analyzeLoopF_trunc_free]

end Memlyze
